import Mathlib

/-!
Shallow embedding of the go-job-orchestrator core for specification checking.

Sources embedded:
- pkg/models (job.go, task.go, state.go): data model (statuses, definitions,
  executions).
- internal/storage/boltdb.go: the persistent store.  BoltDB buckets keep keys
  in lexicographic byte order and the queue bucket uses the execution id as
  the key, so the queue is modelled as a duplicate-free list of ids kept
  sorted by that order; `DequeueJob` takes `cursor.First()`, i.e. the head of
  the sorted list.  Store errors in Go are `fmt.Errorf` values; they are
  modelled as their message strings.
- internal/orchestrator/task.go: `executeTask`, the retry executor.  A task
  implementation is modelled as `Nat → Option String`, giving the outcome of
  each attempt (none = success, some msg = the error of that attempt); real
  wall-clock sleeps are recorded as a list of slept durations in seconds.
- internal/orchestrator/job.go: `EnqueueJob`, `ExecuteJob`,
  `GetJobExecutionState`.  `time.Now()` is modelled by an abstract clock
  (`now : Nat`) in the orchestrator state.  Every `UpdateJobExecution` call
  made during a run is additionally recorded in a `persists` trace so that
  properties about the sequence of states observed over time can be stated.
- internal/orchestrator/orchestrator.go: `recoverState`, `processQueue`
  (one iteration), and the `workerPool` channel of capacity `maxConcurrent`,
  modelled as a counter of units in use with acquire blocked at capacity.
-/

namespace Orch

/-- Per-task status (models.TaskStatus); PENDING is also the implicit status
of a task with no entry in taskStatuses. -/
inductive TaskStatus where
  | pending
  | running
  | completed
  | failed
deriving DecidableEq, Repr

/-- Job execution status (models.JobStatus). -/
inductive JobStatus where
  | queued
  | running
  | completed
  | failed
deriving DecidableEq, Repr

/-- models.Task: one step of a job definition. -/
structure Task where
  id : String
  name : String
  maxRetry : Nat
  functionName : String
deriving DecidableEq, Repr

/-- models.JobDefinition: immutable ordered sequence of tasks. -/
structure JobDefinition where
  id : String
  name : String
  tasks : List Task
deriving DecidableEq, Repr

/-- Input payload of an execution (the map[string]interface payload up to the
keys and printable values the claims need; never inspected by the core). -/
abbrev JobData := List (String × String)

/-- models.JobExecution: one run of a definition.  `startTime`/`endTime` use
the abstract clock; `endTime = none` models the Go zero time (never stamped).
`taskStatuses` is the task-id keyed status map (Go map modelled as an
association list; the nil map is the empty list). -/
structure JobExecution where
  id : String
  definitionId : String
  status : JobStatus
  startTime : Nat
  endTime : Option Nat
  data : JobData
  taskStatuses : List (String × TaskStatus)
deriving DecidableEq, Repr

/-- Go map assignment `m[k] = v` on the association-list model (also BoltDB
Put): replaces the existing entry or appends a new one. -/
def putAssoc {α : Type} (m : List (String × α)) (k : String) (v : α) :
    List (String × α) :=
  match m with
  | [] => [(k, v)]
  | (k', v') :: rest =>
      if k' = k then (k, v) :: rest else (k', v') :: putAssoc rest k v

/-- Go map assignment on the taskStatuses map. -/
def setStatus (m : List (String × TaskStatus)) (tid : String) (s : TaskStatus) :
    List (String × TaskStatus) :=
  putAssoc m tid s

/-- Go map read `m[k]` with the zero-value default: a missing key reads as
PENDING (the spec's implicit status). -/
def getStatus (m : List (String × TaskStatus)) (tid : String) : TaskStatus :=
  match m.lookup tid with
  | some s => s
  | none => TaskStatus.pending

/-- A task implementation: outcome of the k-th invocation within one
executeTask call (none = the Go function returned nil). -/
abbrev TaskFn := Nat → Option String

/-- The task registry (Orchestrator.taskFunctions), keyed by task id as in
`o.taskFunctions[task.ID]`. -/
abbrev Registry := String → Option TaskFn

/-- Result of one executeTask call: the returned error (if any), how many
times the implementation was invoked, and the slept backoff durations in
seconds, in order. -/
structure TaskRun where
  result : Except String Unit
  invocations : Nat
  sleeps : List Nat
deriving Repr

/-- The RetriesExhausted message format of task.go line 309. -/
def retriesExhaustedMsg (taskId : String) (maxRetry : Nat) (last : String) :
    String :=
  s!"task {taskId} failed after {maxRetry} retries: {last}"

/-- The retry loop of executeTask (task.go lines 295-315): `retries` is the
loop counter, `fuel` the remaining loop iterations (`maxRetry + 1 - retries`
at every call).  The fuel-0 fallback mirrors the unreachable return after the
loop (task.go line 319). -/
def retryLoop (taskId : String) (maxRetry : Nat) (fn : TaskFn) :
    Nat → Nat → TaskRun
  | _, 0 =>
      ⟨Except.error s!"task {taskId} failed after {maxRetry} retries", 0, []⟩
  | retries, fuel + 1 =>
      match fn retries with
      | none => ⟨Except.ok (), 1, []⟩
      | some e =>
          if retries = maxRetry then
            ⟨Except.error (retriesExhaustedMsg taskId maxRetry e), 1, []⟩
          else
            let rest := retryLoop taskId maxRetry fn (retries + 1) fuel
            ⟨rest.result, rest.invocations + 1, 2 ^ retries :: rest.sleeps⟩

/-- executeTask (task.go lines 285-320): look up the implementation by task
id; if absent fail immediately, otherwise run the retry loop with exponential
backoff. -/
def executeTask (reg : Registry) (task : Task) : TaskRun :=
  match reg task.id with
  | none =>
      ⟨Except.error s!"no function registered for task ID: {task.id}", 0, []⟩
  | some fn => retryLoop task.id task.maxRetry fn 0 (task.maxRetry + 1)

theorem retryLoop_succ (taskId : String) (maxRetry : Nat) (fn : TaskFn)
    (retries fuel : Nat) :
    retryLoop taskId maxRetry fn retries (fuel + 1) =
      match fn retries with
      | none => ⟨Except.ok (), 1, []⟩
      | some e =>
          if retries = maxRetry then
            ⟨Except.error (retriesExhaustedMsg taskId maxRetry e), 1, []⟩
          else
            let rest := retryLoop taskId maxRetry fn (retries + 1) fuel
            ⟨rest.result, rest.invocations + 1, 2 ^ retries :: rest.sleeps⟩ :=
  rfl

theorem retryLoop_allFail (taskId : String) (R : Nat) (fn : TaskFn)
    (errs : Nat → String) (hfail : ∀ k, fn k = some (errs k)) :
    ∀ m retries, retries + m = R →
      retryLoop taskId R fn retries (m + 1) =
        ⟨Except.error (retriesExhaustedMsg taskId R (errs R)),
         m + 1, (List.range' retries m).map (fun i => 2 ^ i)⟩ := by
  intro m
  induction m with
  | zero =>
      intro retries h
      simp only [Nat.add_zero] at h
      subst h
      rw [retryLoop_succ, hfail]
      simp
  | succ n ih =>
      intro retries h
      have hne : retries ≠ R := by omega
      have hrec := ih (retries + 1) (by omega)
      rw [retryLoop_succ, hfail]
      simp only [hne, if_false, hrec, List.range'_succ]
      simp

/-- Claim C1: for every task whose implementation is registered and always
returns an error, executeTask with maxRetry = R invokes the implementation
exactly R + 1 times, sleeps 2^i seconds after failed attempt i for
i = 0..R-1, and returns the RetriesExhausted error built from the task id and
the retry count (task.go line 309). -/
theorem executeTask_retriesExhausted (task : Task) (reg : Registry)
    (fn : TaskFn) (errs : Nat → String)
    (hreg : reg task.id = some fn)
    (hfail : ∀ k, fn k = some (errs k)) :
    executeTask reg task =
      ⟨Except.error
         (retriesExhaustedMsg task.id task.maxRetry (errs task.maxRetry)),
       task.maxRetry + 1,
       (List.range task.maxRetry).map (fun i => 2 ^ i)⟩ := by
  unfold executeTask
  rw [hreg]
  show retryLoop task.id task.maxRetry fn 0 (task.maxRetry + 1) = _
  have h := retryLoop_allFail task.id task.maxRetry fn errs hfail
    task.maxRetry 0 (by omega)
  rw [h, List.range_eq_range']

theorem executeTask_retriesExhausted_witness :
    executeTask
      (fun tid => if tid = "t1" then some (fun _ => some "boom") else none)
      ⟨"t1", "Task one", 2, "f1"⟩ =
      ⟨Except.error "task t1 failed after 2 retries: boom", 3, [1, 2]⟩ := by
  have h := executeTask_retriesExhausted ⟨"t1", "Task one", 2, "f1"⟩
    (fun tid => if tid = "t1" then some (fun _ => some "boom") else none)
    (fun _ => some "boom") (fun _ => "boom") (by simp) (fun _ => rfl)
  rw [h]
  rfl

/-- The distinguished empty-queue error message (boltdb.go line 223), matched
verbatim by the scheduler (orchestrator.go line 97). -/
def emptyQueueMsg : String := "queue is empty"

/-- Definition-not-found error message (boltdb.go line 103). -/
def defNotFoundMsg : String := "job definition not found"

/-- Execution-not-found error message (boltdb.go line 157). -/
def execNotFoundMsg : String := "job execution not found"

/-- Lexicographic order on character lists, the model of bytes.Compare on
the UTF-8 keys of a BoltDB bucket (identical on the ASCII ids used here). -/
def charsLt : List Char → List Char → Bool
  | [], [] => false
  | [], _ :: _ => true
  | _ :: _, [] => false
  | a :: as, b :: bs =>
      if a < b then true
      else if a = b then charsLt as bs
      else false

/-- BoltDB key order on strings. -/
def keyLt (a b : String) : Bool := charsLt a.data b.data

/-- BoltDB key insertion into the queue bucket: keys live in lexicographic
order and a Put on an existing key overwrites its (empty) value, leaving the
key set unchanged. -/
def insertKey (k : String) : List String → List String
  | [] => [k]
  | x :: xs =>
      if keyLt k x then k :: x :: xs
      else if k = x then x :: xs
      else x :: insertKey k xs

/-- The persistent store (boltdb.go): the three buckets.  `queue` is the
queue bucket's key list in BoltDB's lexicographic key order. -/
structure Store where
  definitions : List (String × JobDefinition)
  executions : List (String × JobExecution)
  queue : List String
deriving DecidableEq, Repr

/-- GetJobDefinition (boltdb.go lines 97-111). -/
def Store.getJobDefinition (s : Store) (id : String) :
    Except String JobDefinition :=
  match s.definitions.lookup id with
  | none => Except.error defNotFoundMsg
  | some jd => Except.ok jd

/-- GetJobExecution (boltdb.go lines 151-165). -/
def Store.getJobExecution (s : Store) (id : String) :
    Except String JobExecution :=
  match s.executions.lookup id with
  | none => Except.error execNotFoundMsg
  | some je => Except.ok je

/-- StoreJobExecution (boltdb.go lines 137-146): Put keyed by je.ID. -/
def Store.storeJobExecution (s : Store) (je : JobExecution) : Store :=
  { s with executions := putAssoc s.executions je.id je }

/-- UpdateJobExecution (boltdb.go lines 169-171) wraps StoreJobExecution. -/
def Store.updateJobExecution (s : Store) (je : JobExecution) : Store :=
  s.storeJobExecution je

/-- GetRunningJobs (boltdb.go lines 116-132): ids of executions whose stored
status is RUNNING, in bucket iteration order. -/
def Store.getRunningJobs (s : Store) : List String :=
  (s.executions.filter
    (fun p => decide (p.2.status = JobStatus.running))).map (fun p => p.1)

/-- GetQueuedJobs (boltdb.go lines 176-189): the queue bucket's keys in
iteration (lexicographic) order. -/
def Store.getQueuedJobs (s : Store) : List String := s.queue

/-- EnqueueJob (boltdb.go lines 200-208): Put the id as a key of the queue
bucket. -/
def Store.enqueueJob (s : Store) (jobID : String) : Store :=
  { s with queue := insertKey jobID s.queue }

/-- DequeueJob (boltdb.go lines 213-229): take `cursor.First()` — the
smallest key — and delete it; error `emptyQueueMsg` when the bucket is
empty. -/
def Store.dequeueJob (s : Store) : Except String (String × Store) :=
  match s.queue with
  | [] => Except.error emptyQueueMsg
  | k :: rest => Except.ok (k, { s with queue := rest })

/-- GetQueuedJobCount (boltdb.go lines 233-244). -/
def Store.getQueuedJobCount (s : Store) : Nat := s.queue.length

/-- RemoveFromQueue (boltdb.go lines 248-256): delete the key; deleting an
absent key is a no-op. -/
def Store.removeFromQueue (s : Store) (jobID : String) : Store :=
  { s with queue := s.queue.erase jobID }

theorem lookup_putAssoc_self {α : Type} (m : List (String × α)) (k : String)
    (v : α) : (putAssoc m k v).lookup k = some v := by
  induction m with
  | nil => simp [putAssoc]
  | cons p rest ih =>
      obtain ⟨k', v'⟩ := p
      by_cases h : k' = k
      · simp [putAssoc, h]
      · have hbe : (k == k') = false := beq_eq_false_iff_ne.mpr (Ne.symm h)
        simp [putAssoc, h, List.lookup, hbe, ih]

theorem lookup_putAssoc_ne {α : Type} (m : List (String × α)) (k k' : String)
    (v : α) (h : k' ≠ k) : (putAssoc m k v).lookup k' = m.lookup k' := by
  induction m with
  | nil =>
      have hbe : (k' == k) = false := beq_eq_false_iff_ne.mpr h
      simp [putAssoc, List.lookup, hbe]
  | cons p rest ih =>
      obtain ⟨a, b⟩ := p
      by_cases ha : a = k
      · subst ha
        have hbe : (k' == a) = false := beq_eq_false_iff_ne.mpr h
        simp [putAssoc, List.lookup, hbe]
      · by_cases ha' : k' = a
        · subst ha'
          simp [putAssoc, ha, List.lookup]
        · have hbe : (k' == a) = false := beq_eq_false_iff_ne.mpr ha'
          simp [putAssoc, ha, List.lookup, hbe, ih]

theorem getStatus_setStatus_self (m : List (String × TaskStatus))
    (tid : String) (s : TaskStatus) : getStatus (setStatus m tid s) tid = s := by
  unfold getStatus setStatus
  rw [lookup_putAssoc_self]

theorem lookup_setStatus_ne (m : List (String × TaskStatus))
    (tid tid' : String) (s : TaskStatus) (h : tid' ≠ tid) :
    (setStatus m tid s).lookup tid' = m.lookup tid' :=
  lookup_putAssoc_ne m tid tid' s h

theorem getStatus_setStatus_ne (m : List (String × TaskStatus))
    (tid tid' : String) (s : TaskStatus) (h : tid' ≠ tid) :
    getStatus (setStatus m tid s) tid' = getStatus m tid' := by
  unfold getStatus
  rw [lookup_setStatus_ne m tid tid' s h]

theorem getStatus_eq_pending (m : List (String × TaskStatus)) (tid : String)
    (h : m.lookup tid = none) : getStatus m tid = TaskStatus.pending := by
  unfold getStatus
  rw [h]

theorem charsLt_trans : ∀ a b c : List Char,
    charsLt a b = true → charsLt b c = true → charsLt a c = true := by
  intro a
  induction a with
  | nil =>
      intro b c hab hbc
      cases b with
      | nil => exact absurd hab (by simp [charsLt])
      | cons y bs =>
          cases c with
          | nil => exact absurd hbc (by simp [charsLt])
          | cons z cs => simp [charsLt]
  | cons x as ih =>
      intro b c hab hbc
      cases b with
      | nil => exact absurd hab (by simp [charsLt])
      | cons y bs =>
          cases c with
          | nil => exact absurd hbc (by simp [charsLt])
          | cons z cs =>
              rw [charsLt] at hab hbc ⊢
              by_cases h1 : x < y
              · by_cases h2 : y < z
                · rw [if_pos (lt_trans h1 h2)]
                · by_cases h3 : y = z
                  · subst h3
                    rw [if_pos h1]
                  · rw [if_neg h2, if_neg h3] at hbc
                    exact absurd hbc (by simp)
              · by_cases h1e : x = y
                · subst h1e
                  rw [if_neg h1, if_pos rfl] at hab
                  by_cases h2 : x < z
                  · rw [if_pos h2]
                  · by_cases h3 : x = z
                    · subst h3
                      rw [if_neg h1, if_pos rfl] at hbc ⊢
                      exact ih bs cs hab hbc
                    · rw [if_neg h2, if_neg h3] at hbc
                      exact absurd hbc (by simp)
                · rw [if_neg h1, if_neg h1e] at hab
                  exact absurd hab (by simp)

theorem charsLt_trichotomy : ∀ a b : List Char,
    charsLt a b = true ∨ a = b ∨ charsLt b a = true := by
  intro a
  induction a with
  | nil =>
      intro b
      cases b with
      | nil => exact Or.inr (Or.inl rfl)
      | cons y bs => exact Or.inl (by simp [charsLt])
  | cons x as ih =>
      intro b
      cases b with
      | nil => exact Or.inr (Or.inr (by simp [charsLt]))
      | cons y bs =>
          rcases lt_trichotomy x y with h | h | h
          · refine Or.inl ?_
            rw [charsLt, if_pos h]
          · subst h
            rcases ih bs with h' | h' | h'
            · refine Or.inl ?_
              rw [charsLt, if_neg (lt_irrefl x), if_pos rfl]
              exact h'
            · refine Or.inr (Or.inl ?_)
              rw [h']
            · refine Or.inr (Or.inr ?_)
              rw [charsLt, if_neg (lt_irrefl x), if_pos rfl]
              exact h'
          · refine Or.inr (Or.inr ?_)
            rw [charsLt, if_pos h]

theorem string_eq_of_data (a b : String) (h : a.data = b.data) : a = b := by
  cases a
  cases b
  exact congrArg String.mk h

theorem keyLt_trans (a b c : String) (hab : keyLt a b = true)
    (hbc : keyLt b c = true) : keyLt a c = true :=
  charsLt_trans a.data b.data c.data hab hbc

theorem keyLt_trichotomy (a b : String) :
    keyLt a b = true ∨ a = b ∨ keyLt b a = true := by
  rcases charsLt_trichotomy a.data b.data with h | h | h
  · exact Or.inl h
  · exact Or.inr (Or.inl (string_eq_of_data a b h))
  · exact Or.inr (Or.inr h)

theorem mem_insertKey (k b : String) (q : List String) :
    b ∈ insertKey k q ↔ b = k ∨ b ∈ q := by
  induction q with
  | nil => simp [insertKey]
  | cons x xs ih =>
      rw [insertKey]
      by_cases h1 : keyLt k x
      · simp [h1]
      · by_cases h2 : k = x
        · subst h2
          simp [h1]
        · simp [h1, h2, ih]
          tauto

/-- The queue bucket invariant: keys strictly increasing in BoltDB key
order. -/
def QueueSorted (q : List String) : Prop :=
  List.Sorted (fun a b => keyLt a b = true) q

theorem insertKey_sorted (k : String) (q : List String)
    (h : QueueSorted q) : QueueSorted (insertKey k q) := by
  induction q with
  | nil => simp [insertKey, QueueSorted]
  | cons x xs ih =>
      rw [QueueSorted, List.sorted_cons] at h
      obtain ⟨hx, hxs⟩ := h
      rw [QueueSorted, insertKey]
      by_cases h1 : keyLt k x
      · rw [if_pos h1, List.sorted_cons]
        refine ⟨?_, ?_⟩
        · intro b hb
          rcases List.mem_cons.mp hb with hb | hb
          · rw [hb]
            exact h1
          · exact keyLt_trans k x b h1 (hx b hb)
        · rw [List.sorted_cons]
          exact ⟨hx, hxs⟩
      · rw [if_neg h1]
        by_cases h2 : k = x
        · rw [if_pos h2, List.sorted_cons]
          exact ⟨hx, hxs⟩
        · rw [if_neg h2, List.sorted_cons]
          refine ⟨?_, ih hxs⟩
          intro b hb
          rcases (mem_insertKey k b xs).mp hb with hb | hb
          · subst hb
            rcases keyLt_trichotomy b x with h | h | h
            · exact absurd h h1
            · exact absurd h h2
            · exact h
          · exact hx b hb

/-- Claim C5 counterexample: enqueueing "b" then "a" on an empty queue,
dequeue returns "a" — not "b", the entry inserted earliest — and
GetQueuedJobs lists ["a", "b"], not insertion order ["b", "a"]: the queue is
ordered by BoltDB key order, not by insertion order. -/
theorem dequeueJob_not_insertion_order :
    (Store.enqueueJob (Store.enqueueJob ⟨[], [], []⟩ "b") "a").getQueuedJobs
        = ["a", "b"] ∧
    (Store.enqueueJob (Store.enqueueJob ⟨[], [], []⟩ "b") "a").dequeueJob
        = Except.ok ("a", ⟨[], [], ["b"]⟩) ∧
    "a" ≠ "b" :=
  ⟨rfl, rfl, by decide⟩

/-- Claim C5 (amended): the queue bucket holds execution ids in lexicographic
key order, not insertion order: enqueue preserves that order, peekAll /
GetQueuedJobs lists the entries in it, and dequeue removes and returns the
lexicographically smallest queued id.  Insertion-order FIFO is obtained only
when ids are enqueued in increasing key order (as the equal-length
time-derived exec-... ids are). -/
theorem queue_lexicographic_fifo (s : Store) (id : String)
    (h : QueueSorted s.queue) :
    QueueSorted (s.enqueueJob id).queue ∧
    s.getQueuedJobs = s.queue ∧
    (∀ k s', s.dequeueJob = Except.ok (k, s') →
      (∀ x ∈ s.queue, keyLt k x = true ∨ k = x) ∧
      s'.queue = s.queue.erase k) := by
  refine ⟨insertKey_sorted id s.queue h, rfl, ?_⟩
  intro k s' hdq
  unfold Store.dequeueJob at hdq
  rcases hq : s.queue with _ | ⟨x, rest⟩
  · rw [hq] at hdq
    simp at hdq
  · rw [hq] at hdq
    simp only [Except.ok.injEq, Prod.mk.injEq] at hdq
    obtain ⟨hk, hs⟩ := hdq
    subst hk
    rw [hq] at h
    rw [QueueSorted, List.sorted_cons] at h
    constructor
    · intro y hy
      rcases List.mem_cons.mp hy with hy | hy
      · exact Or.inr hy.symm
      · exact Or.inl (h.1 y hy)
    · rw [← hs]
      exact (List.erase_cons_head x rest).symm

theorem queue_lexicographic_fifo_witness :
    QueueSorted ((⟨[], [], ["a", "c"]⟩ : Store).enqueueJob "b").queue ∧
    (⟨[], [], ["a", "c"]⟩ : Store).getQueuedJobs = ["a", "c"] ∧
    (∀ k s', (⟨[], [], ["a", "c"]⟩ : Store).dequeueJob = Except.ok (k, s') →
      (∀ x ∈ (["a", "c"] : List String), keyLt k x = true ∨ k = x) ∧
      s'.queue = (["a", "c"] : List String).erase k) :=
  queue_lexicographic_fifo ⟨[], [], ["a", "c"]⟩ "b"
    (by rw [QueueSorted]; decide)

/-- In-memory orchestrator state: the store, the ongoing set
(Orchestrator.ongoingJobs, a set of execution ids), the number of workerPool
semaphore units in use, the configured capacity, and the abstract clock
backing time.Now(). -/
structure OrchState where
  store : Store
  ongoing : List String
  sem : Nat
  maxConcurrent : Nat
  now : Nat
deriving DecidableEq, Repr

/-- sync.Map.Store on the ongoing set: set-insert. -/
def insertOngoing (id : String) (l : List String) : List String :=
  if id ∈ l then l else id :: l

/-- A cancellation context: whether ctx.Done() fires at the i-th task
boundary check (job.go line 101).  context.Background() never does. -/
abbrev Ctx := Nat → Bool

/-- context.Background(): never cancelled. -/
def ctxBackground : Ctx := fun _ => false

/-- What one task iteration contributed to the run: which task id ran, how
often its implementation was invoked, which backoffs were slept. -/
structure TaskRunLog where
  taskId : String
  invocations : Nat
  sleeps : List Nat
deriving DecidableEq, Repr

/-- Outcome of one ExecuteJob call: the final orchestrator state, the
returned error, the per-task invocation log, and the trace of execution
snapshots passed to UpdateJobExecution, in call order. -/
structure ExecResult where
  state : OrchState
  result : Except String Unit
  log : List TaskRunLog
  persists : List JobExecution
deriving Repr

/-- The task-failure wrapper of job.go line 125. -/
def taskFailedMsg (tid e : String) : String :=
  s!"task {tid} failed: {e}"

/-- ctx.Err() after cancellation. -/
def ctxCanceledMsg : String := "context canceled"

/-- The deferred cleanup of ExecuteJob (job.go lines 81-90): delete the id
from the ongoing set, stamp EndTime, persist the final snapshot, remove the
id from the queue.  Returns the stamped snapshot so the caller can record the
persist. -/
def execCleanup (st : OrchState) (je : JobExecution) (executionID : String) :
    OrchState × JobExecution :=
  let jeF := { je with endTime := some st.now }
  ({ st with
      store := (st.store.updateJobExecution jeF).removeFromQueue executionID,
      ongoing := st.ongoing.erase executionID,
      now := st.now + 1 },
   jeF)

/-- The task iteration of ExecuteJob (job.go lines 100-145) followed by the
deferred cleanup on every exit: per task, check cancellation; else mark the
task RUNNING and persist, run executeTask, then mark the task FAILED (and the
job FAILED, halting) or COMPLETED and persist; after the last task mark the
job COMPLETED and persist. -/
def taskLoop (reg : Registry) (ctx : Ctx) (executionID : String) :
    List Task → Nat → JobExecution → OrchState → ExecResult
  | [], _, je, st =>
      let jeC := { je with status := JobStatus.completed }
      let stC := { st with store := st.store.updateJobExecution jeC }
      let (stF, jeF) := execCleanup stC jeC executionID
      ⟨stF, Except.ok (), [], [jeC, jeF]⟩
  | task :: rest, i, je, st =>
      if ctx i then
        let sx := setStatus je.taskStatuses task.id TaskStatus.failed
        let jeX := { je with status := JobStatus.failed, taskStatuses := sx }
        let (stF, jeF) := execCleanup st jeX executionID
        ⟨stF, Except.error ctxCanceledMsg, [], [jeF]⟩
      else
        let sr := setStatus je.taskStatuses task.id TaskStatus.running
        let jeR := { je with taskStatuses := sr }
        let stR := { st with store := st.store.updateJobExecution jeR }
        let run := executeTask reg task
        match run.result with
        | Except.error e =>
            let sx := setStatus jeR.taskStatuses task.id TaskStatus.failed
            let jeX := { jeR with status := JobStatus.failed,
                                  taskStatuses := sx }
            let stX := { stR with store := stR.store.updateJobExecution jeX }
            let (stF, jeF) := execCleanup stX jeX executionID
            ⟨stF, Except.error (taskFailedMsg task.id e),
             [⟨task.id, run.invocations, run.sleeps⟩], [jeR, jeX, jeF]⟩
        | Except.ok _ =>
            let sc := setStatus jeR.taskStatuses task.id TaskStatus.completed
            let jeC := { jeR with taskStatuses := sc }
            let stC := { stR with store := stR.store.updateJobExecution jeC }
            let r := taskLoop reg ctx executionID rest (i + 1) jeC stC
            ⟨r.state, r.result,
             ⟨task.id, run.invocations, run.sleeps⟩ :: r.log,
             jeR :: jeC :: r.persists⟩

/-- The body of ExecuteJob once the execution and its definition are loaded
(job.go lines 68-145): persist the RUNNING transition, record the id in the
ongoing set, and run the task sequence with the deferred cleanup armed. -/
def runningPhase (reg : Registry) (ctx : Ctx) (executionID : String)
    (je : JobExecution) (jd : JobDefinition) (st : OrchState) : ExecResult :=
  let jeR := { je with status := JobStatus.running }
  let st1 := { st with
                store := st.store.updateJobExecution jeR,
                ongoing := insertOngoing executionID st.ongoing }
  let r := taskLoop reg ctx executionID jd.tasks 0 jeR st1
  ⟨r.state, r.result, r.log, jeR :: r.persists⟩

/-- ExecuteJob (job.go lines 47-145): load the execution (abort on failure);
no-op if it is already terminal; load the definition (abort on failure);
then the running phase. -/
def executeJob (reg : Registry) (ctx : Ctx) (st : OrchState)
    (executionID : String) : ExecResult :=
  match st.store.getJobExecution executionID with
  | Except.error e =>
      ⟨st, Except.error ("failed to get job execution: " ++ e), [], []⟩
  | Except.ok je =>
      if je.status = JobStatus.completed ∨ je.status = JobStatus.failed then
        ⟨st, Except.ok (), [], []⟩
      else
        match st.store.getJobDefinition je.definitionId with
        | Except.error e =>
            ⟨st, Except.error ("failed to get job definition: " ++ e), [], []⟩
        | Except.ok jd => runningPhase reg ctx executionID je jd st

/-- The time-derived execution id of job.go line 22. -/
def execId (now : Nat) : String := s!"exec-{now}"

/-- EnqueueJob (job.go lines 18-42): build a fresh QUEUED execution, persist
it, then enqueue its id; returns the id and the created record. -/
def enqueueJob (st : OrchState) (definitionID : String) (data : JobData) :
    String × OrchState × JobExecution :=
  let id := execId st.now
  let je : JobExecution :=
    ⟨id, definitionID, JobStatus.queued, st.now, none, data, []⟩
  (id,
   { st with
      store := (st.store.storeJobExecution je).enqueueJob id,
      now := st.now + 1 },
   je)

/-- recoverState (orchestrator.go lines 61-77): list RUNNING executions,
record each id in the ongoing set, and dispatch each to ExecuteJob with
context.Background() on its own goroutine.  The dispatched ids are returned;
no workerPool unit is acquired for them. -/
def recoverState (st : OrchState) : OrchState × List String :=
  let running := st.store.getRunningJobs
  ({ st with
      ongoing := running.foldl (fun o id => insertOngoing id o) st.ongoing },
   running)

/-- What one iteration of the processQueue loop does
(orchestrator.go lines 85-118). -/
inductive SchedAction where
  | stopped
  | sleptRetry
  | loggedError (e : String)
  | dispatched (id : String)
deriving DecidableEq, Repr

/-- One iteration of processQueue: on stop, exit; on dequeue error compare
the message with the empty-queue message verbatim — wait a second and retry
if it matches, log and continue otherwise; on success acquire a workerPool
unit and dispatch the id. -/
def processQueueIter (st : OrchState) (stopRequested : Bool) :
    SchedAction × OrchState :=
  if stopRequested then (SchedAction.stopped, st)
  else
    match st.store.dequeueJob with
    | Except.error e =>
        if e = emptyQueueMsg then (SchedAction.sleptRetry, st)
        else (SchedAction.loggedError e, st)
    | Except.ok (id, s') =>
        (SchedAction.dispatched id,
         { st with store := s', sem := st.sem + 1 })

/-- The workerPool channel of capacity k as a transition system on the
number of units in use: a send (acquire, orchestrator.go line 107) blocks
unless fewer than k units are held; the deferred receive (release,
line 112) frees one. -/
inductive PoolStep (k : Nat) : Nat → Nat → Prop
  | acquire (n : Nat) : n < k → PoolStep k n (n + 1)
  | release (n : Nat) : PoolStep k (n + 1) n

/-- Unit counts reachable from an idle pool. -/
inductive PoolReach (k : Nat) : Nat → Prop
  | init : PoolReach k 0
  | step (m n : Nat) : PoolReach k m → PoolStep k m n → PoolReach k n

theorem mem_insertOngoing (x id : String) (l : List String) :
    x ∈ insertOngoing id l ↔ x = id ∨ x ∈ l := by
  unfold insertOngoing
  by_cases h : id ∈ l
  · rw [if_pos h]
    constructor
    · exact Or.inr
    · intro hx
      rcases hx with hx | hx
      · exact hx ▸ h
      · exact hx
  · rw [if_neg h]
    exact List.mem_cons

theorem mem_foldl_insertOngoing (l : List String) :
    ∀ acc x, x ∈ l ∨ x ∈ acc →
      x ∈ l.foldl (fun o id => insertOngoing id o) acc := by
  induction l with
  | nil =>
      intro acc x h
      rcases h with h | h
      · exact absurd h (List.not_mem_nil x)
      · exact h
  | cons y ys ih =>
      intro acc x h
      rw [List.foldl_cons]
      apply ih
      rcases h with h | h
      · rcases List.mem_cons.mp h with h | h
        · exact Or.inr ((mem_insertOngoing x y acc).mpr (Or.inl h))
        · exact Or.inl h
      · exact Or.inr ((mem_insertOngoing x y acc).mpr (Or.inr h))

/-- Claim C3: calling ExecuteJob on an execution already COMPLETED or FAILED
returns success immediately, leaving the store, the queue, and the ongoing
set unchanged: no task implementation is invoked (empty log), nothing is
persisted, and the terminal status is never re-entered. -/
theorem executeJob_terminal_noop (reg : Registry) (ctx : Ctx)
    (st : OrchState) (executionID : String) (je : JobExecution)
    (hje : st.store.getJobExecution executionID = Except.ok je)
    (hterm : je.status = JobStatus.completed ∨ je.status = JobStatus.failed) :
    executeJob reg ctx st executionID = ⟨st, Except.ok (), [], []⟩ := by
  unfold executeJob
  rw [hje]
  exact if_pos hterm

theorem executeJob_terminal_noop_witness :
    executeJob (fun _ => none) ctxBackground
      ⟨⟨[], [("e1", ⟨"e1", "d", JobStatus.completed, 0, none, [], []⟩)], []⟩,
       [], 0, 1, 5⟩ "e1" =
      ⟨⟨⟨[], [("e1", ⟨"e1", "d", JobStatus.completed, 0, none, [], []⟩)], []⟩,
        [], 0, 1, 5⟩, Except.ok (), [], []⟩ :=
  executeJob_terminal_noop (fun _ => none) ctxBackground
    ⟨⟨[], [("e1", ⟨"e1", "d", JobStatus.completed, 0, none, [], []⟩)], []⟩,
     [], 0, 1, 5⟩ "e1" ⟨"e1", "d", JobStatus.completed, 0, none, [], []⟩
    rfl (Or.inl rfl)

/-- Claim C6: dequeue on an empty queue fails with exactly the distinguished
empty-queue message — distinct from every other error message the store
produces — iff the queue is empty, and the scheduler iteration reacts to
exactly that condition by sleeping a fixed interval and retrying (sleptRetry,
state unchanged), never surfacing it as a failure. -/
theorem emptyQueue_distinguishable (st : OrchState) :
    (st.store.dequeueJob = Except.error emptyQueueMsg ↔ st.store.queue = []) ∧
    (st.store.queue = [] →
      processQueueIter st false = (SchedAction.sleptRetry, st)) ∧
    emptyQueueMsg ≠ defNotFoundMsg ∧ emptyQueueMsg ≠ execNotFoundMsg := by
  refine ⟨?_, ?_, by decide, by decide⟩
  · unfold Store.dequeueJob
    rcases hq : st.store.queue with _ | ⟨x, rest⟩
    · simp
    · simp
  · intro hq
    unfold processQueueIter Store.dequeueJob
    rw [hq]
    simp

theorem emptyQueue_distinguishable_witness :
    processQueueIter ⟨⟨[], [], []⟩, [], 0, 1, 0⟩ false =
      (SchedAction.sleptRetry, ⟨⟨[], [], []⟩, [], 0, 1, 0⟩) :=
  (emptyQueue_distinguishable ⟨⟨[], [], []⟩, [], 0, 1, 0⟩).2.1 rfl

/-- Claim C9 counterexample: recovery dispatches RUNNING executions without
acquiring workerPool units.  With maxConcurrent = 1 and two stored RUNNING
executions, recoverState puts both ids in the ongoing set — 2 > 1
simultaneously ongoing — while the semaphore count stays 0, so the dispatched
executions hold no unit of the capacity-1 semaphore. -/
theorem recovery_bypasses_semaphore :
    (recoverState ⟨⟨[], [("e1", ⟨"e1", "d", JobStatus.running, 0, none, [], []⟩),
                        ("e2", ⟨"e2", "d", JobStatus.running, 0, none, [], []⟩)],
                    []⟩, [], 0, 1, 0⟩).1.ongoing.length = 2 ∧
    (⟨⟨[], [("e1", ⟨"e1", "d", JobStatus.running, 0, none, [], []⟩),
            ("e2", ⟨"e2", "d", JobStatus.running, 0, none, [], []⟩)],
        []⟩, [], 0, 1, 0⟩ : OrchState).maxConcurrent = 1 ∧
    (recoverState ⟨⟨[], [("e1", ⟨"e1", "d", JobStatus.running, 0, none, [], []⟩),
                        ("e2", ⟨"e2", "d", JobStatus.running, 0, none, [], []⟩)],
                    []⟩, [], 0, 1, 0⟩).1.sem = 0 ∧
    (recoverState ⟨⟨[], [("e1", ⟨"e1", "d", JobStatus.running, 0, none, [], []⟩),
                        ("e2", ⟨"e2", "d", JobStatus.running, 0, none, [], []⟩)],
                    []⟩, [], 0, 1, 0⟩).2 = ["e1", "e2"] ∧
    1 < 2 :=
  ⟨rfl, rfl, rfl, rfl, by decide⟩

/-- Claim C9 (amended): only executions dispatched by the processQueue
dequeue path hold workerPool units; the channel of capacity k keeps the
number of units in use at most k along every reachable schedule, while
recovery-dispatched executions acquire no unit (recoverState leaves the
semaphore count unchanged), so the ongoing set can exceed maxConcurrent when
recovered executions run. -/
theorem workerPool_bounds_dequeued_dispatches (k n : Nat)
    (h : PoolReach k n) :
    n ≤ k ∧ ∀ st : OrchState, (recoverState st).1.sem = st.sem := by
  constructor
  · induction h with
    | init => exact Nat.zero_le k
    | step m n hr hs ih =>
        cases hs with
        | acquire _ hlt => omega
        | release _ => omega
  · intro st
    rfl

theorem workerPool_bounds_dequeued_dispatches_witness :
    1 ≤ 1 ∧
    (recoverState ⟨⟨[], [], []⟩, [], 0, 1, 0⟩).1.sem = 0 :=
  ⟨(workerPool_bounds_dequeued_dispatches 1 1
      (PoolReach.step 0 1 PoolReach.init
        (PoolStep.acquire 0 (by decide)))).1,
   (workerPool_bounds_dequeued_dispatches 1 1
      (PoolReach.step 0 1 PoolReach.init
        (PoolStep.acquire 0 (by decide)))).2 ⟨⟨[], [], []⟩, [], 0, 1, 0⟩⟩

/-- The invocation log a run produces, determined solely by the registry,
the context, and the definition's task list from its first task on. -/
def taskLogs (reg : Registry) (ctx : Ctx) : List Task → Nat → List TaskRunLog
  | [], _ => []
  | t :: rest, i =>
      if ctx i then []
      else
        let run := executeTask reg t
        match run.result with
        | Except.error _ => [⟨t.id, run.invocations, run.sleeps⟩]
        | Except.ok _ =>
            ⟨t.id, run.invocations, run.sleeps⟩ :: taskLogs reg ctx rest (i + 1)

theorem taskLoop_log (reg : Registry) (ctx : Ctx) (executionID : String) :
    ∀ (ts : List Task) (i : Nat) (je : JobExecution) (st : OrchState),
      (taskLoop reg ctx executionID ts i je st).log = taskLogs reg ctx ts i := by
  intro ts
  induction ts with
  | nil =>
      intro i je st
      rfl
  | cons t rest ih =>
      intro i je st
      by_cases hc : ctx i
      · simp only [taskLoop, taskLogs, hc, if_true]
      · simp only [taskLoop, taskLogs, hc]
        rcases hrun : (executeTask reg t).result with e | u
        · simp [hrun]
        · simp [hrun, ih]

theorem executeJob_run (reg : Registry) (ctx : Ctx) (st : OrchState)
    (executionID : String) (je : JobExecution) (jd : JobDefinition)
    (hje : st.store.getJobExecution executionID = Except.ok je)
    (hnt : ¬(je.status = JobStatus.completed ∨ je.status = JobStatus.failed))
    (hjd : st.store.getJobDefinition je.definitionId = Except.ok jd) :
    executeJob reg ctx st executionID =
      runningPhase reg ctx executionID je jd st := by
  unfold executeJob
  rw [hje]
  show (if je.status = JobStatus.completed ∨ je.status = JobStatus.failed
        then (⟨st, Except.ok (), [], []⟩ : ExecResult)
        else match st.store.getJobDefinition je.definitionId with
             | Except.error e =>
                 ⟨st, Except.error ("failed to get job definition: " ++ e),
                  [], []⟩
             | Except.ok jd => runningPhase reg ctx executionID je jd st) =
      runningPhase reg ctx executionID je jd st
  rw [if_neg hnt, hjd]

/-- Claim C7: recoverState dispatches exactly the executions stored in
RUNNING status, adds each id to the ongoing set, and each dispatched
ExecuteJob re-runs the definition's full task sequence starting from the
first task (index 0): its invocation log equals taskLogs of the definition's
task list, which does not depend on the taskStatuses already recorded in the
execution. -/
theorem recovery_restarts_from_first_task (st : OrchState) (reg : Registry)
    (ctx : Ctx) (executionID : String) (je : JobExecution)
    (jd : JobDefinition)
    (hje : st.store.getJobExecution executionID = Except.ok je)
    (hnt : ¬(je.status = JobStatus.completed ∨ je.status = JobStatus.failed))
    (hjd : st.store.getJobDefinition je.definitionId = Except.ok jd) :
    (recoverState st).2 = st.store.getRunningJobs ∧
    (∀ rid ∈ st.store.getRunningJobs, rid ∈ (recoverState st).1.ongoing) ∧
    (executeJob reg ctx st executionID).log = taskLogs reg ctx jd.tasks 0 := by
  refine ⟨rfl, ?_, ?_⟩
  · intro rid hrid
    exact mem_foldl_insertOngoing st.store.getRunningJobs st.ongoing rid
      (Or.inl hrid)
  · rw [executeJob_run reg ctx st executionID je jd hje hnt hjd]
    exact taskLoop_log reg ctx executionID jd.tasks 0 _ _

/-- Sample registry: the implementation of task "t1" always succeeds. -/
def regT1Ok : Registry :=
  fun tid => if tid = "t1" then some (fun _ => none) else none

/-- Sample definition "d" with the single task "t1". -/
def jdD : JobDefinition := ⟨"d", "D", [⟨"t1", "T1", 0, "f1"⟩]⟩

/-- Sample execution left RUNNING by a crash, task "t1" already recorded
COMPLETED. -/
def jeRecov : JobExecution :=
  ⟨"e1", "d", JobStatus.running, 0, none, [], [("t1", TaskStatus.completed)]⟩

/-- Orchestrator state seeded with the crashed execution. -/
def stRecov : OrchState := ⟨⟨[("d", jdD)], [("e1", jeRecov)], []⟩, [], 0, 1, 0⟩

theorem recovery_restarts_from_first_task_witness :
    (recoverState stRecov).2 = stRecov.store.getRunningJobs ∧
    (∀ rid ∈ stRecov.store.getRunningJobs,
       rid ∈ (recoverState stRecov).1.ongoing) ∧
    (executeJob regT1Ok ctxBackground stRecov "e1").log =
      taskLogs regT1Ok ctxBackground jdD.tasks 0 :=
  recovery_restarts_from_first_task stRecov regT1Ok ctxBackground "e1"
    jeRecov jdD rfl (by simp [jeRecov]) rfl

/-- Claim C10: EnqueueJob never resolves definitionID: for any definitionID,
even one with no stored definition, it persists a new execution with status
QUEUED, enqueues its id, and returns the id; when that execution is later
dispatched, ExecuteJob fails with DefinitionNotFound before the RUNNING
transition, leaving the stored execution's status QUEUED. -/
theorem enqueueJob_unchecked_definition (st : OrchState) (defId : String)
    (data : JobData) (reg : Registry) (ctx : Ctx)
    (hdef : st.store.definitions.lookup defId = none) :
    (enqueueJob st defId data).2.2.status = JobStatus.queued ∧
    (enqueueJob st defId data).2.1.store.executions.lookup
        (enqueueJob st defId data).1 = some (enqueueJob st defId data).2.2 ∧
    (enqueueJob st defId data).1 ∈ (enqueueJob st defId data).2.1.store.queue ∧
    executeJob reg ctx (enqueueJob st defId data).2.1
        (enqueueJob st defId data).1 =
      ⟨(enqueueJob st defId data).2.1,
       Except.error ("failed to get job definition: " ++ defNotFoundMsg),
       [], []⟩ ∧
    ((executeJob reg ctx (enqueueJob st defId data).2.1
        (enqueueJob st defId data).1).state.store.executions.lookup
        (enqueueJob st defId data).1).map JobExecution.status =
      some JobStatus.queued := by
  have hlook : (enqueueJob st defId data).2.1.store.executions.lookup
      (enqueueJob st defId data).1 =
      some ⟨execId st.now, defId, JobStatus.queued, st.now, none, data, []⟩ :=
    lookup_putAssoc_self st.store.executions (execId st.now)
      ⟨execId st.now, defId, JobStatus.queued, st.now, none, data, []⟩
  have hje : (enqueueJob st defId data).2.1.store.getJobExecution
      (enqueueJob st defId data).1 =
      Except.ok ⟨execId st.now, defId, JobStatus.queued, st.now, none, data,
                 []⟩ := by
    unfold Store.getJobExecution
    rw [hlook]
  have hjd : (enqueueJob st defId data).2.1.store.getJobDefinition defId =
      Except.error defNotFoundMsg := by
    unfold Store.getJobDefinition
    rw [show (enqueueJob st defId data).2.1.store.definitions =
          st.store.definitions from rfl, hdef]
  have h4 : executeJob reg ctx (enqueueJob st defId data).2.1
      (enqueueJob st defId data).1 =
      ⟨(enqueueJob st defId data).2.1,
       Except.error ("failed to get job definition: " ++ defNotFoundMsg),
       [], []⟩ := by
    unfold executeJob
    rw [hje]
    show (if JobStatus.queued = JobStatus.completed ∨
             JobStatus.queued = JobStatus.failed
          then (⟨(enqueueJob st defId data).2.1, Except.ok (), [], []⟩ :
                 ExecResult)
          else match (enqueueJob st defId data).2.1.store.getJobDefinition
                       defId with
               | Except.error e =>
                   ⟨(enqueueJob st defId data).2.1,
                    Except.error ("failed to get job definition: " ++ e),
                    [], []⟩
               | Except.ok jd =>
                   runningPhase reg ctx (enqueueJob st defId data).1
                     ⟨execId st.now, defId, JobStatus.queued, st.now, none,
                      data, []⟩ jd (enqueueJob st defId data).2.1) = _
    rw [if_neg (by simp), hjd]
  refine ⟨rfl, hlook, (mem_insertKey _ _ _).mpr (Or.inl rfl), h4, ?_⟩
  rw [h4]
  show ((enqueueJob st defId data).2.1.store.executions.lookup
          (enqueueJob st defId data).1).map JobExecution.status =
    some JobStatus.queued
  rw [hlook]
  rfl

theorem enqueueJob_unchecked_definition_witness :
    (enqueueJob ⟨⟨[], [], []⟩, [], 0, 1, 0⟩ "nope" []).2.2.status =
        JobStatus.queued ∧
    (enqueueJob ⟨⟨[], [], []⟩, [], 0, 1, 0⟩ "nope" []).2.1.store.executions.lookup
        (enqueueJob ⟨⟨[], [], []⟩, [], 0, 1, 0⟩ "nope" []).1 =
      some (enqueueJob ⟨⟨[], [], []⟩, [], 0, 1, 0⟩ "nope" []).2.2 ∧
    (enqueueJob ⟨⟨[], [], []⟩, [], 0, 1, 0⟩ "nope" []).1 ∈
      (enqueueJob ⟨⟨[], [], []⟩, [], 0, 1, 0⟩ "nope" []).2.1.store.queue ∧
    executeJob (fun _ => none) ctxBackground
        (enqueueJob ⟨⟨[], [], []⟩, [], 0, 1, 0⟩ "nope" []).2.1
        (enqueueJob ⟨⟨[], [], []⟩, [], 0, 1, 0⟩ "nope" []).1 =
      ⟨(enqueueJob ⟨⟨[], [], []⟩, [], 0, 1, 0⟩ "nope" []).2.1,
       Except.error ("failed to get job definition: " ++ defNotFoundMsg),
       [], []⟩ ∧
    ((executeJob (fun _ => none) ctxBackground
        (enqueueJob ⟨⟨[], [], []⟩, [], 0, 1, 0⟩ "nope" []).2.1
        (enqueueJob ⟨⟨[], [], []⟩, [], 0, 1, 0⟩ "nope" []).1).state.store.executions.lookup
        (enqueueJob ⟨⟨[], [], []⟩, [], 0, 1, 0⟩ "nope" []).1).map
      JobExecution.status = some JobStatus.queued :=
  enqueueJob_unchecked_definition ⟨⟨[], [], []⟩, [], 0, 1, 0⟩ "nope" []
    (fun _ => none) ctxBackground rfl

/-- The snapshot persisted when task t is marked RUNNING (job.go line 112). -/
def markRunning (je : JobExecution) (t : Task) : JobExecution :=
  { je with taskStatuses := setStatus je.taskStatuses t.id TaskStatus.running }

/-- The snapshot persisted when task t is marked COMPLETED (job.go
line 130). -/
def markCompleted (je : JobExecution) (t : Task) : JobExecution :=
  { markRunning je t with
      taskStatuses :=
        setStatus (markRunning je t).taskStatuses t.id TaskStatus.completed }

/-- The snapshot persisted when task t fails (job.go lines 120-121). -/
def markFailed (je : JobExecution) (t : Task) : JobExecution :=
  let r := { markRunning je t with status := JobStatus.failed }
  { r with
      taskStatuses :=
        setStatus (markRunning je t).taskStatuses t.id TaskStatus.failed }

/-- The in-memory record after the cancellation branch (job.go
lines 105-106). -/
def markCanceled (je : JobExecution) (t : Task) : JobExecution :=
  let r := { je with status := JobStatus.failed }
  { r with
      taskStatuses := setStatus je.taskStatuses t.id TaskStatus.failed }

/-- The record after all tasks completed (job.go line 139). -/
def jeDone (je : JobExecution) : JobExecution :=
  { je with status := JobStatus.completed }

/-- EndTime stamping of the deferred cleanup (job.go line 83). -/
def stamped (je : JobExecution) (n : Nat) : JobExecution :=
  { je with endTime := some n }

/-- The orchestrator state after the deferred cleanup persisted jeF and
removed the id from queue and ongoing set. -/
def cleanupState (st : OrchState) (jeF : JobExecution) (eid : String) :
    OrchState :=
  { st with
      store := (st.store.updateJobExecution jeF).removeFromQueue eid,
      ongoing := st.ongoing.erase eid,
      now := st.now + 1 }

/-- Store state after a task was marked RUNNING and then FAILED. -/
def storeAfterFail (st : OrchState) (je : JobExecution) (t : Task) :
    OrchState :=
  { st with
      store := (st.store.updateJobExecution
        (markRunning je t)).updateJobExecution (markFailed je t) }

/-- Store state after a task was marked RUNNING and then COMPLETED. -/
def storeAfterOk (st : OrchState) (je : JobExecution) (t : Task) :
    OrchState :=
  { st with
      store := (st.store.updateJobExecution
        (markRunning je t)).updateJobExecution (markCompleted je t) }

theorem taskLoop_nil (reg : Registry) (ctx : Ctx) (eid : String) (i : Nat)
    (je : JobExecution) (st : OrchState) :
    taskLoop reg ctx eid [] i je st =
      ⟨cleanupState { st with store := st.store.updateJobExecution (jeDone je) }
         (stamped (jeDone je) st.now) eid,
       Except.ok (), [], [jeDone je, stamped (jeDone je) st.now]⟩ :=
  rfl

theorem taskLoop_cons_cancel (reg : Registry) (ctx : Ctx) (eid : String)
    (t : Task) (rest : List Task) (i : Nat) (je : JobExecution)
    (st : OrchState) (hc : ctx i = true) :
    taskLoop reg ctx eid (t :: rest) i je st =
      ⟨cleanupState st (stamped (markCanceled je t) st.now) eid,
       Except.error ctxCanceledMsg, [],
       [stamped (markCanceled je t) st.now]⟩ := by
  simp [taskLoop, hc, execCleanup, cleanupState, markCanceled, stamped]

theorem taskLoop_cons_fail (reg : Registry) (ctx : Ctx) (eid : String)
    (t : Task) (rest : List Task) (i : Nat) (je : JobExecution)
    (st : OrchState) (e : String) (hc : ctx i = false)
    (ht : (executeTask reg t).result = Except.error e) :
    taskLoop reg ctx eid (t :: rest) i je st =
      ⟨cleanupState (storeAfterFail st je t)
         (stamped (markFailed je t) st.now) eid,
       Except.error (taskFailedMsg t.id e),
       [⟨t.id, (executeTask reg t).invocations, (executeTask reg t).sleeps⟩],
       [markRunning je t, markFailed je t,
        stamped (markFailed je t) st.now]⟩ := by
  simp [taskLoop, hc, ht, execCleanup, cleanupState, storeAfterFail,
        markRunning, markFailed, stamped]

theorem taskLoop_cons_ok (reg : Registry) (ctx : Ctx) (eid : String)
    (t : Task) (rest : List Task) (i : Nat) (je : JobExecution)
    (st : OrchState) (hc : ctx i = false)
    (ht : (executeTask reg t).result = Except.ok ()) :
    taskLoop reg ctx eid (t :: rest) i je st =
      ⟨(taskLoop reg ctx eid rest (i + 1) (markCompleted je t)
          (storeAfterOk st je t)).state,
       (taskLoop reg ctx eid rest (i + 1) (markCompleted je t)
          (storeAfterOk st je t)).result,
       ⟨t.id, (executeTask reg t).invocations, (executeTask reg t).sleeps⟩ ::
         (taskLoop reg ctx eid rest (i + 1) (markCompleted je t)
            (storeAfterOk st je t)).log,
       markRunning je t :: markCompleted je t ::
         (taskLoop reg ctx eid rest (i + 1) (markCompleted je t)
            (storeAfterOk st je t)).persists⟩ := by
  simp [taskLoop, hc, ht, storeAfterOk, markRunning, markCompleted]

/-- The log entry one task contributes: its id, how often executeTask
invoked its implementation, and the backoffs slept. -/
def logOf (reg : Registry) (t : Task) : TaskRunLog :=
  ⟨t.id, (executeTask reg t).invocations, (executeTask reg t).sleeps⟩

theorem taskLoop_failAfter (reg : Registry) (executionID : String)
    (e : String) (t : Task) (post : List Task)
    (ht : (executeTask reg t).result = Except.error e) :
    ∀ (pre : List Task) (i : Nat) (je : JobExecution) (st : OrchState),
      je.id = executionID →
      (∀ t' ∈ pre, (executeTask reg t').result = Except.ok ()) →
      ((pre ++ t :: post).map Task.id).Nodup →
      (taskLoop reg ctxBackground executionID (pre ++ t :: post) i je
          st).result = Except.error (taskFailedMsg t.id e) ∧
      (taskLoop reg ctxBackground executionID (pre ++ t :: post) i je
          st).log = pre.map (logOf reg) ++ [logOf reg t] ∧
      ∃ jeF,
        (taskLoop reg ctxBackground executionID (pre ++ t :: post) i je
            st).state.store.executions.lookup executionID = some jeF ∧
        jeF.status = JobStatus.failed ∧
        (∃ n, jeF.endTime = some n) ∧
        getStatus jeF.taskStatuses t.id = TaskStatus.failed ∧
        (∀ t' ∈ pre,
           getStatus jeF.taskStatuses t'.id = TaskStatus.completed) ∧
        (∀ tid, tid ∉ (pre ++ [t]).map Task.id →
           getStatus jeF.taskStatuses tid = getStatus je.taskStatuses tid) := by
  intro pre
  induction pre with
  | nil =>
      intro i je st hid hpre hnodup
      rw [List.nil_append,
          taskLoop_cons_fail reg ctxBackground executionID t post i je st e
            rfl ht]
      refine ⟨rfl, by simp [logOf], ?_⟩
      refine ⟨stamped (markFailed je t) st.now, ?_, rfl, ⟨st.now, rfl⟩,
              ?_, ?_, ?_⟩
      · show (putAssoc (storeAfterFail st je t).store.executions
            (stamped (markFailed je t) st.now).id
            (stamped (markFailed je t) st.now)).lookup executionID =
          some (stamped (markFailed je t) st.now)
        rw [show (stamped (markFailed je t) st.now).id = executionID from hid]
        exact lookup_putAssoc_self _ _ _
      · exact getStatus_setStatus_self _ t.id _
      · intro t' ht'
        exact absurd ht' (List.not_mem_nil t')
      · intro tid htid
        have hne : tid ≠ t.id := by simpa using htid
        show getStatus (setStatus (setStatus je.taskStatuses t.id
            TaskStatus.running) t.id TaskStatus.failed) tid =
          getStatus je.taskStatuses tid
        rw [getStatus_setStatus_ne _ _ _ _ hne,
            getStatus_setStatus_ne _ _ _ _ hne]
  | cons t0 pre' ih =>
      intro i je st hid hpre hnodup
      have h0 : (executeTask reg t0).result = Except.ok () :=
        hpre t0 (List.mem_cons_self t0 pre')
      rw [List.cons_append,
          taskLoop_cons_ok reg ctxBackground executionID t0
            (pre' ++ t :: post) i je st rfl h0]
      have hnodup2 : (t0.id :: (pre' ++ t :: post).map Task.id).Nodup := by
        simpa using hnodup
      have hhead : t0.id ∉ (pre' ++ t :: post).map Task.id :=
        (List.nodup_cons.mp hnodup2).1
      have hnodup' : ((pre' ++ t :: post).map Task.id).Nodup :=
        (List.nodup_cons.mp hnodup2).2
      have hidC : (markCompleted je t0).id = executionID := hid
      have hpre' : ∀ t' ∈ pre', (executeTask reg t').result = Except.ok () :=
        fun t' ht' => hpre t' (List.mem_cons_of_mem t0 ht')
      obtain ⟨hres, hlog, jeF, hlook, hstat, hend, htfail, hcomp, hframe⟩ :=
        ih (i + 1) (markCompleted je t0) (storeAfterOk st je t0) hidC hpre'
          hnodup'
      have hnotin : t0.id ∉ (pre' ++ [t]).map Task.id := by
        intro hmem
        apply hhead
        rcases List.mem_map.mp hmem with ⟨u, hu, hid'⟩
        rcases List.mem_append.mp hu with hu | hu
        · exact List.mem_map.mpr ⟨u, List.mem_append.mpr (Or.inl hu), hid'⟩
        · have hu' : u = t := List.mem_singleton.mp hu
          subst hu'
          exact List.mem_map.mpr
            ⟨u, List.mem_append.mpr (Or.inr (List.mem_cons_self u post)),
             hid'⟩
      refine ⟨hres, ?_, jeF, hlook, hstat, hend, htfail, ?_, ?_⟩
      · show logOf reg t0 ::
            (taskLoop reg ctxBackground executionID (pre' ++ t :: post)
              (i + 1) (markCompleted je t0) (storeAfterOk st je t0)).log =
          (t0 :: pre').map (logOf reg) ++ [logOf reg t]
        rw [hlog, List.map_cons, List.cons_append]
      · intro t' ht'
        rcases List.mem_cons.mp ht' with h | h
        · subst h
          rw [hframe t'.id hnotin]
          exact getStatus_setStatus_self _ _ _
        · exact hcomp t' h
      · intro tid htid
        have h1 : tid ∉ (pre' ++ [t]).map Task.id := by
          intro hm
          apply htid
          rw [List.cons_append, List.map_cons]
          exact List.mem_cons_of_mem _ hm
        have h2 : tid ≠ t0.id := by
          intro he
          apply htid
          rw [List.cons_append, List.map_cons]
          rw [he]
          exact List.mem_cons_self _ _
        rw [hframe tid h1]
        show getStatus (setStatus (setStatus je.taskStatuses t0.id
            TaskStatus.running) t0.id TaskStatus.completed) tid =
          getStatus je.taskStatuses tid
        rw [getStatus_setStatus_ne _ _ _ _ h2,
            getStatus_setStatus_ne _ _ _ _ h2]

/-- Claim C2: when a task of the sequence fails after its retries are
exhausted (all earlier tasks succeeding), ExecuteJob marks that task FAILED
and the job FAILED, persists that state, and invokes no implementation of any
later task: the run's log covers exactly the tasks up to and including the
failing one, with the earlier tasks recorded COMPLETED. -/
theorem executeJob_failFast (reg : Registry) (st : OrchState)
    (executionID : String) (je : JobExecution) (jd : JobDefinition)
    (pre : List Task) (t : Task) (post : List Task) (e : String)
    (hje : st.store.getJobExecution executionID = Except.ok je)
    (hnt : ¬(je.status = JobStatus.completed ∨ je.status = JobStatus.failed))
    (hjd : st.store.getJobDefinition je.definitionId = Except.ok jd)
    (hts : jd.tasks = pre ++ t :: post)
    (hid : je.id = executionID)
    (hpre : ∀ t' ∈ pre, (executeTask reg t').result = Except.ok ())
    (ht : (executeTask reg t).result = Except.error e)
    (hnodup : ((pre ++ t :: post).map Task.id).Nodup) :
    (executeJob reg ctxBackground st executionID).result =
        Except.error (taskFailedMsg t.id e) ∧
    (executeJob reg ctxBackground st executionID).log =
        pre.map (logOf reg) ++ [logOf reg t] ∧
    ∃ jeF,
      (executeJob reg ctxBackground st
          executionID).state.store.executions.lookup executionID = some jeF ∧
      jeF.status = JobStatus.failed ∧
      getStatus jeF.taskStatuses t.id = TaskStatus.failed ∧
      (∀ t' ∈ pre,
         getStatus jeF.taskStatuses t'.id = TaskStatus.completed) := by
  rw [executeJob_run reg ctxBackground st executionID je jd hje hnt hjd]
  simp only [runningPhase, hts]
  have hidR : ({ je with status := JobStatus.running } : JobExecution).id =
      executionID := hid
  obtain ⟨hres, hlog, jeF, hlook, hstat, hend, htfail, hcomp, hframe⟩ :=
    taskLoop_failAfter reg executionID e t post ht pre 0
      { je with status := JobStatus.running }
      { st with
          store := st.store.updateJobExecution
            { je with status := JobStatus.running },
          ongoing := insertOngoing executionID st.ongoing }
      hidR hpre hnodup
  exact ⟨hres, hlog, jeF, hlook, hstat, htfail, hcomp⟩

/-- Sample registry for the two-task scenario: task1 always succeeds, task2
always fails with "boom". -/
def regC2 : Registry :=
  fun tid =>
    if tid = "task1" then some (fun _ => none)
    else if tid = "task2" then some (fun _ => some "boom") else none

/-- Two-task definition: task1 (maxRetry 0), task2 (maxRetry 1). -/
def jdC2 : JobDefinition :=
  ⟨"d2", "D2", [⟨"task1", "T1", 0, "f1"⟩, ⟨"task2", "T2", 1, "f2"⟩]⟩

/-- Fresh queued execution of jdC2. -/
def jeC2 : JobExecution := ⟨"e2", "d2", JobStatus.queued, 0, none, [], []⟩

/-- State with jdC2 registered and jeC2 enqueued. -/
def stC2 : OrchState := ⟨⟨[("d2", jdC2)], [("e2", jeC2)], ["e2"]⟩, [], 0, 1, 0⟩

theorem executeJob_failFast_witness :
    (executeJob regC2 ctxBackground stC2 "e2").result =
      Except.error
        (taskFailedMsg "task2" "task task2 failed after 1 retries: boom") ∧
    (executeJob regC2 ctxBackground stC2 "e2").log =
      [⟨"task1", 1, []⟩, ⟨"task2", 2, [1]⟩] ∧
    ∃ jeF,
      (executeJob regC2 ctxBackground stC2
          "e2").state.store.executions.lookup "e2" = some jeF ∧
      jeF.status = JobStatus.failed ∧
      getStatus jeF.taskStatuses "task2" = TaskStatus.failed ∧
      getStatus jeF.taskStatuses "task1" = TaskStatus.completed := by
  obtain ⟨h1, h2, jeF, h3, h4, h5, h6⟩ :=
    executeJob_failFast regC2 stC2 "e2" jeC2 jdC2
      [⟨"task1", "T1", 0, "f1"⟩] ⟨"task2", "T2", 1, "f2"⟩ []
      "task task2 failed after 1 retries: boom"
      rfl (by decide) rfl rfl rfl
      (by
        intro t' ht'
        rw [List.mem_singleton.mp ht']
        rfl)
      rfl (by decide)
  refine ⟨h1, ?_, jeF, h3, h4, h5,
          h6 ⟨"task1", "T1", 0, "f1"⟩ (List.mem_singleton.mpr rfl)⟩
  rw [h2]
  rfl

/-- Execution whose definitionId resolves to no stored definition. -/
def jeC4 : JobExecution := ⟨"e1", "missing", JobStatus.queued, 0, none, [], []⟩

/-- State holding jeC4, with its id still in the queue. -/
def stC4 : OrchState := ⟨⟨[], [("e1", jeC4)], ["e1"]⟩, [], 0, 1, 0⟩

/-- Claim C4 counterexample: on the exit taken when the JobDefinition cannot
be resolved, ExecuteJob performs no cleanup at all: the call returns an error
(an exit path), yet the state is fully unchanged — the execution id is still
in the queue, endTime is not stamped, and nothing is persisted.  The cleanup
is armed only after the RUNNING transition, so it does not run on this exit
path. -/
theorem executeJob_no_cleanup_on_defNotFound :
    (executeJob (fun _ => none) ctxBackground stC4 "e1").result =
      Except.error ("failed to get job definition: " ++ defNotFoundMsg) ∧
    (executeJob (fun _ => none) ctxBackground stC4 "e1").state = stC4 ∧
    "e1" ∈ (executeJob (fun _ => none) ctxBackground stC4
        "e1").state.store.queue ∧
    ((executeJob (fun _ => none) ctxBackground stC4
        "e1").state.store.executions.lookup "e1").map JobExecution.endTime =
      some none ∧
    (executeJob (fun _ => none) ctxBackground stC4 "e1").persists = [] :=
  ⟨rfl, rfl, List.mem_singleton.mpr rfl, rfl, rfl⟩

theorem taskLoop_cleanup (reg : Registry) (ctx : Ctx) (executionID : String) :
    ∀ (ts : List Task) (i : Nat) (je : JobExecution) (st : OrchState),
      je.id = executionID →
      (taskLoop reg ctx executionID ts i je st).state.ongoing =
          st.ongoing.erase executionID ∧
      (taskLoop reg ctx executionID ts i je st).state.store.queue =
          st.store.queue.erase executionID ∧
      ∃ jeF n,
        (taskLoop reg ctx executionID ts i je
            st).state.store.executions.lookup executionID = some jeF ∧
        jeF.endTime = some n ∧
        jeF ∈ (taskLoop reg ctx executionID ts i je st).persists := by
  intro ts
  induction ts with
  | nil =>
      intro i je st hid
      rw [taskLoop_nil]
      refine ⟨rfl, rfl, stamped (jeDone je) st.now, st.now, ?_, rfl,
              List.mem_cons_of_mem _ (List.mem_singleton.mpr rfl)⟩
      show (putAssoc
          ({ st with store := st.store.updateJobExecution (jeDone je)
           } : OrchState).store.executions
          (stamped (jeDone je) st.now).id
          (stamped (jeDone je) st.now)).lookup executionID =
        some (stamped (jeDone je) st.now)
      rw [show (stamped (jeDone je) st.now).id = executionID from hid]
      exact lookup_putAssoc_self _ _ _
  | cons t rest ih =>
      intro i je st hid
      cases hcc : ctx i with
      | true =>
          rw [taskLoop_cons_cancel reg ctx executionID t rest i je st hcc]
          refine ⟨rfl, rfl, stamped (markCanceled je t) st.now, st.now, ?_,
                  rfl, List.mem_singleton.mpr rfl⟩
          show (putAssoc st.store.executions
              (stamped (markCanceled je t) st.now).id
              (stamped (markCanceled je t) st.now)).lookup executionID =
            some (stamped (markCanceled je t) st.now)
          rw [show (stamped (markCanceled je t) st.now).id = executionID
                from hid]
          exact lookup_putAssoc_self _ _ _
      | false =>
          rcases hrun : (executeTask reg t).result with e | u
          · rw [taskLoop_cons_fail reg ctx executionID t rest i je st e hcc
                  hrun]
            refine ⟨rfl, rfl, stamped (markFailed je t) st.now, st.now, ?_,
                    rfl, ?_⟩
            · show (putAssoc (storeAfterFail st je t).store.executions
                  (stamped (markFailed je t) st.now).id
                  (stamped (markFailed je t) st.now)).lookup executionID =
                some (stamped (markFailed je t) st.now)
              rw [show (stamped (markFailed je t) st.now).id = executionID
                    from hid]
              exact lookup_putAssoc_self _ _ _
            · exact List.mem_cons_of_mem _ (List.mem_cons_of_mem _
                (List.mem_singleton.mpr rfl))
          · obtain ⟨⟩ := u
            rw [taskLoop_cons_ok reg ctx executionID t rest i je st hcc hrun]
            obtain ⟨h1, h2, jeF, n, hlook, hend, hmem⟩ :=
              ih (i + 1) (markCompleted je t) (storeAfterOk st je t) hid
            exact ⟨h1, h2, jeF, n, hlook, hend,
                   List.mem_cons_of_mem _ (List.mem_cons_of_mem _ hmem)⟩

theorem not_mem_insertOngoing_erase (x : String) (l : List String)
    (h : l.Nodup) : x ∉ (insertOngoing x l).erase x := by
  unfold insertOngoing
  by_cases hx : x ∈ l
  · rw [if_pos hx]
    intro hmem
    exact ((List.Nodup.mem_erase_iff h).mp hmem).1 rfl
  · rw [if_neg hx, List.erase_cons_head]
    exact hx

/-- Claim C4 (amended): once ExecuteJob has passed the RUNNING transition —
the execution loaded, non-terminal, and its definition resolved — the
deferred cleanup runs on every exit path (success, task failure, or
cancellation): the id leaves the ongoing set and the queue, endTime is
stamped, and the stamped final snapshot is persisted.  The exits before that
point (execution missing, terminal status, definition unresolved, or the
RUNNING persist failing) perform no cleanup. -/
theorem executeJob_cleanup_after_running (reg : Registry) (ctx : Ctx)
    (st : OrchState) (executionID : String) (je : JobExecution)
    (jd : JobDefinition)
    (hje : st.store.getJobExecution executionID = Except.ok je)
    (hnt : ¬(je.status = JobStatus.completed ∨ je.status = JobStatus.failed))
    (hjd : st.store.getJobDefinition je.definitionId = Except.ok jd)
    (hid : je.id = executionID)
    (hq : st.store.queue.Nodup) (hong : st.ongoing.Nodup) :
    executionID ∉ (executeJob reg ctx st executionID).state.ongoing ∧
    executionID ∉ (executeJob reg ctx st executionID).state.store.queue ∧
    ∃ jeF n,
      (executeJob reg ctx st
          executionID).state.store.executions.lookup executionID = some jeF ∧
      jeF.endTime = some n ∧
      jeF ∈ (executeJob reg ctx st executionID).persists := by
  rw [executeJob_run reg ctx st executionID je jd hje hnt hjd]
  simp only [runningPhase]
  have hidR : ({ je with status := JobStatus.running } : JobExecution).id =
      executionID := hid
  obtain ⟨hong', hq', jeF, n, hlook, hend, hmem⟩ :=
    taskLoop_cleanup reg ctx executionID jd.tasks 0
      { je with status := JobStatus.running }
      { st with
          store := st.store.updateJobExecution
            { je with status := JobStatus.running },
          ongoing := insertOngoing executionID st.ongoing }
      hidR
  refine ⟨?_, ?_, jeF, n, hlook, hend, List.mem_cons_of_mem _ hmem⟩
  · show executionID ∉ (taskLoop reg ctx executionID jd.tasks 0
        { je with status := JobStatus.running }
        { st with
            store := st.store.updateJobExecution
              { je with status := JobStatus.running },
            ongoing := insertOngoing executionID st.ongoing }).state.ongoing
    rw [hong']
    exact not_mem_insertOngoing_erase executionID st.ongoing hong
  · show executionID ∉ (taskLoop reg ctx executionID jd.tasks 0
        { je with status := JobStatus.running }
        { st with
            store := st.store.updateJobExecution
              { je with status := JobStatus.running },
            ongoing := insertOngoing executionID st.ongoing
        }).state.store.queue
    rw [hq']
    intro hmem'
    exact ((List.Nodup.mem_erase_iff hq).mp hmem').1 rfl

theorem executeJob_cleanup_after_running_witness :
    "e2" ∉ (executeJob regC2 ctxBackground stC2 "e2").state.ongoing ∧
    "e2" ∉ (executeJob regC2 ctxBackground stC2 "e2").state.store.queue ∧
    ∃ jeF n,
      (executeJob regC2 ctxBackground stC2
          "e2").state.store.executions.lookup "e2" = some jeF ∧
      jeF.endTime = some n ∧
      jeF ∈ (executeJob regC2 ctxBackground stC2 "e2").persists :=
  executeJob_cleanup_after_running regC2 ctxBackground stC2 "e2" jeC2 jdC2
    rfl (by decide) rfl rfl (by decide) (by decide)

/-- The spec's task-status order PENDING < RUNNING < {COMPLETED, FAILED}. -/
def statusRank : TaskStatus → Nat
  | TaskStatus.pending => 0
  | TaskStatus.running => 1
  | TaskStatus.completed => 2
  | TaskStatus.failed => 2

/-- Snapshot b dominates snapshot a: no task's status regresses from a to b
(absent entries read as PENDING). -/
def taskMonotone (a b : JobExecution) : Prop :=
  ∀ tid, statusRank (getStatus a.taskStatuses tid) ≤
    statusRank (getStatus b.taskStatuses tid)

/-- Claim C8 counterexample: a crash-recovery restart resets a COMPLETED
task to RUNNING in the persisted snapshots.  Re-running the stRecov execution
(status RUNNING, task "t1" recorded COMPLETED) persists first the RUNNING
transition with "t1" still COMPLETED, then the first-task RUNNING update with
"t1" reset to RUNNING — a regression from rank 2 to rank 1, so the persisted
status sequence of this execution id is not non-decreasing. -/
theorem taskStatus_regression_on_recovery :
    ¬ List.Chain' taskMonotone
        (executeJob regT1Ok ctxBackground stRecov "e1").persists := by
  intro h
  have hp : (executeJob regT1Ok ctxBackground stRecov "e1").persists =
      (⟨"e1", "d", JobStatus.running, 0, none, [],
        [("t1", TaskStatus.completed)]⟩ : JobExecution) ::
      (⟨"e1", "d", JobStatus.running, 0, none, [],
        [("t1", TaskStatus.running)]⟩ : JobExecution) ::
      (executeJob regT1Ok ctxBackground stRecov "e1").persists.drop 2 := rfl
  rw [hp] at h
  have h01 := (List.chain'_cons.mp h).1
  exact absurd (h01 "t1") (by decide)

theorem taskMonotone_of_eq (a b : JobExecution)
    (h : a.taskStatuses = b.taskStatuses) : taskMonotone a b := by
  intro tid
  rw [h]

theorem taskMonotone_setStatus (a b : JobExecution) (tid : String)
    (s' : TaskStatus)
    (hb : b.taskStatuses = setStatus a.taskStatuses tid s')
    (hr : statusRank (getStatus a.taskStatuses tid) ≤ statusRank s') :
    taskMonotone a b := by
  intro x
  by_cases hx : x = tid
  · subst hx
    rw [hb, getStatus_setStatus_self]
    exact hr
  · rw [hb, getStatus_setStatus_ne _ _ _ _ hx]

theorem taskLoop_chain (reg : Registry) (ctx : Ctx) (executionID : String) :
    ∀ (ts : List Task) (i : Nat) (je : JobExecution) (st : OrchState),
      (∀ t ∈ ts, je.taskStatuses.lookup t.id = none) →
      (ts.map Task.id).Nodup →
      List.Chain' taskMonotone
        (je :: (taskLoop reg ctx executionID ts i je st).persists) := by
  intro ts
  induction ts with
  | nil =>
      intro i je st habs hnodup
      rw [taskLoop_nil]
      refine List.chain'_cons.mpr ⟨taskMonotone_of_eq _ _ rfl, ?_⟩
      refine List.chain'_cons.mpr ⟨taskMonotone_of_eq _ _ rfl, ?_⟩
      exact List.chain'_singleton _
  | cons t rest ih =>
      intro i je st habs hnodup
      have htid : je.taskStatuses.lookup t.id = none :=
        habs t (List.mem_cons_self t rest)
      have hpend : getStatus je.taskStatuses t.id = TaskStatus.pending :=
        getStatus_eq_pending _ _ htid
      have hnodup2 : (t.id :: rest.map Task.id).Nodup := by simpa using hnodup
      have hhead : t.id ∉ rest.map Task.id := (List.nodup_cons.mp hnodup2).1
      have hnodup' : (rest.map Task.id).Nodup := (List.nodup_cons.mp hnodup2).2
      cases hcc : ctx i with
      | true =>
          rw [taskLoop_cons_cancel reg ctx executionID t rest i je st hcc]
          refine List.chain'_cons.mpr ⟨?_, List.chain'_singleton _⟩
          refine taskMonotone_setStatus je _ t.id TaskStatus.failed rfl ?_
          rw [hpend]
          decide
      | false =>
          rcases hrun : (executeTask reg t).result with e | u
          · rw [taskLoop_cons_fail reg ctx executionID t rest i je st e hcc
                  hrun]
            refine List.chain'_cons.mpr ⟨?_, ?_⟩
            · refine taskMonotone_setStatus je _ t.id TaskStatus.running
                rfl ?_
              rw [hpend]
              decide
            refine List.chain'_cons.mpr ⟨?_, ?_⟩
            · refine taskMonotone_setStatus (markRunning je t) _ t.id
                TaskStatus.failed rfl ?_
              rw [show getStatus (markRunning je t).taskStatuses t.id =
                    TaskStatus.running from getStatus_setStatus_self _ _ _]
              decide
            refine List.chain'_cons.mpr ⟨taskMonotone_of_eq _ _ rfl, ?_⟩
            exact List.chain'_singleton _
          · obtain ⟨⟩ := u
            rw [taskLoop_cons_ok reg ctx executionID t rest i je st hcc hrun]
            have habs' : ∀ t' ∈ rest,
                (markCompleted je t).taskStatuses.lookup t'.id = none := by
              intro t' ht'
              have hne : t'.id ≠ t.id := fun he =>
                hhead (he ▸ List.mem_map.mpr ⟨t', ht', rfl⟩)
              show (setStatus (setStatus je.taskStatuses t.id
                  TaskStatus.running) t.id TaskStatus.completed).lookup
                  t'.id = none
              rw [lookup_setStatus_ne _ _ _ _ hne,
                  lookup_setStatus_ne _ _ _ _ hne]
              exact habs t' (List.mem_cons_of_mem t ht')
            have hchain := ih (i + 1) (markCompleted je t)
              (storeAfterOk st je t) habs' hnodup'
            refine List.chain'_cons.mpr ⟨?_, ?_⟩
            · refine taskMonotone_setStatus je _ t.id TaskStatus.running
                rfl ?_
              rw [hpend]
              decide
            refine List.chain'_cons.mpr ⟨?_, hchain⟩
            refine taskMonotone_setStatus (markRunning je t) _ t.id
              TaskStatus.completed rfl ?_
            rw [show getStatus (markRunning je t).taskStatuses t.id =
                  TaskStatus.running from getStatus_setStatus_self _ _ _]
            decide

/-- Claim C8 (amended): within a single ExecuteJob run that starts with no
recorded task statuses (the fresh-enqueue case) and whose definition's task
ids are distinct, the persisted snapshots are per-task non-decreasing in the
order PENDING < RUNNING < {COMPLETED, FAILED}.  Across a crash-recovery
restart of the same execution id the guarantee does not hold: recorded
terminal statuses are reset to RUNNING as the sequence re-runs from the
first task. -/
theorem taskStatuses_monotone_fresh_run (reg : Registry) (ctx : Ctx)
    (st : OrchState) (executionID : String) (je : JobExecution)
    (jd : JobDefinition)
    (hje : st.store.getJobExecution executionID = Except.ok je)
    (hnt : ¬(je.status = JobStatus.completed ∨ je.status = JobStatus.failed))
    (hjd : st.store.getJobDefinition je.definitionId = Except.ok jd)
    (hstat : je.taskStatuses = [])
    (hnodup : (jd.tasks.map Task.id).Nodup) :
    List.Chain' taskMonotone (executeJob reg ctx st executionID).persists := by
  rw [executeJob_run reg ctx st executionID je jd hje hnt hjd]
  simp only [runningPhase]
  show List.Chain' taskMonotone
    ({ je with status := JobStatus.running } ::
      (taskLoop reg ctx executionID jd.tasks 0
        { je with status := JobStatus.running }
        { st with
            store := st.store.updateJobExecution
              { je with status := JobStatus.running },
            ongoing := insertOngoing executionID st.ongoing }).persists)
  apply taskLoop_chain
  · intro t ht
    show je.taskStatuses.lookup t.id = none
    rw [hstat]
    rfl
  · exact hnodup

/-- Fresh queued execution of jdD with no recorded task statuses. -/
def jeFresh : JobExecution := ⟨"e3", "d", JobStatus.queued, 0, none, [], []⟩

/-- State with jdD registered and jeFresh stored. -/
def stFresh : OrchState :=
  ⟨⟨[("d", jdD)], [("e3", jeFresh)], ["e3"]⟩, [], 0, 1, 0⟩

theorem taskStatuses_monotone_fresh_run_witness :
    List.Chain' taskMonotone
      (executeJob regT1Ok ctxBackground stFresh "e3").persists :=
  taskStatuses_monotone_fresh_run regT1Ok ctxBackground stFresh "e3"
    jeFresh jdD rfl (by decide) rfl rfl (by decide)

end Orch
